import Mathlib

/-!
Shallow embedding of `smac/optimizer/ei_optimization.py`.

The module implements acquisition-function maximization:
`AcquisitionFunctionMaximizer` (abstract contract plus the shared
tie-breaking sort `_sort_configs_by_acq_value`), `LocalSearch`
(first-improvement hill climbing with plateau walks), `RandomSearch`,
`InterleavedLocalAndRandomSearch` (composition of the two), and
`ChallengerList` (a lazy iterator interleaving fresh random draws).

External collaborators (the acquisition function, the configuration
space's samplers and neighborhood generator, the random number
generator) are modelled as explicit function parameters; machine floats
that only ever get compared are modelled as `Int` scores; the shared
`np.random.RandomState` is modelled as deterministic streams indexed by
a draw counter.
-/

/-- A point of the search space together with its mutable provenance tag
(`Configuration.origin` in the Python source). -/
structure Configuration where
  vector : Nat
  origin : String
deriving DecidableEq

/-- Assignment `config.origin = o` from the source, as a functional update. -/
def setOrigin (c : Configuration) (o : String) : Configuration :=
  { c with origin := o }

/-- The evaluation history: `data` models the run records
(`runhistory.data`, only its length and emptiness are inspected) and
`allConfigs` models `runhistory.get_all_configs()`. -/
structure RunHistory where
  data : List Nat
  allConfigs : List Configuration
deriving DecidableEq

/-- Error raised by unimplemented `_maximize` primitives
(`NotImplementedError` in Python). -/
inductive MaximizerError where
  | notImplemented
deriving DecidableEq

/-! ### ChallengerList -/

/-- State of a `ChallengerList` object: the fixed challenger list, the
cursor `_index`, the `_next_is_random` flag, and a counter into the
random-draw stream of the configuration space. -/
structure ChallengerListState where
  challengers : List Configuration
  index : Nat
  nextIsRandom : Bool
  rngIdx : Nat
deriving DecidableEq

/-- `ChallengerList.__init__`: cursor 0, `_next_is_random = False`. -/
def initCL (chals : List Configuration) : ChallengerListState :=
  ⟨chals, 0, false, 0⟩

/-- `ChallengerList.__next__`: `none` models `StopIteration`; `sample`
models `configuration_space.sample_configuration()` as a stream of
draws. -/
def CLnext (sample : Nat → Configuration) (s : ChallengerListState) :
    Option (Configuration × ChallengerListState) :=
  if s.index = s.challengers.length ∧ s.nextIsRandom = false then
    none
  else if s.nextIsRandom then
    some (setOrigin (sample s.rngIdx) "Random Search",
      { s with nextIsRandom := false, rngIdx := s.rngIdx + 1 })
  else
    match s.challengers[s.index]? with
    | some c => some (c, { s with nextIsRandom := true, index := s.index + 1 })
    | none => none

/-- Pulling from a `ChallengerList` up to `fuel` times, collecting the
yielded configurations in order until `StopIteration`. -/
def CLout (sample : Nat → Configuration) : Nat → ChallengerListState → List Configuration
  | 0, _ => []
  | fuel + 1, s =>
    match CLnext sample s with
    | none => []
    | some (c, s2) => c :: CLout sample fuel s2

/-- The alternating list-element / fresh-random-draw output shape of a
full `ChallengerList` iteration. -/
def clPattern (sample : Nat → Configuration) : List Configuration → Nat → List Configuration
  | [], _ => []
  | c :: rest, r =>
    c :: setOrigin (sample r) "Random Search" :: clPattern sample rest (r + 1)

/-! ### Shared tie-breaking sort -/

/-- Ascending lexicographic comparison used by `np.lexsort` in
`_sort_configs_by_acq_value`: primary key the acquisition value, secondary
key the random tie-break value. -/
def keyRel (a b : Int × Int × Configuration) : Prop :=
  a.1 < b.1 ∨ (a.1 = b.1 ∧ a.2.1 ≤ b.2.1)

instance : DecidableRel keyRel := fun a b => by
  unfold keyRel; infer_instance

instance : IsTotal (Int × Int × Configuration) keyRel :=
  ⟨by intro a b; unfold keyRel; omega⟩

instance : IsTrans (Int × Int × Configuration) keyRel :=
  ⟨by intro a b c hab hbc; unfold keyRel at *; omega⟩

/-- `AcquisitionFunctionMaximizer._sort_configs_by_acq_value`: score all
configurations, attach one random tie-break number per configuration
(`tie` models `rng.rand(len(acq_values))`), sort ascending by
(acquisition value, tie-break) with a stable sort as `np.lexsort` does,
then reverse (`indices[::-1]`) and return (score, configuration) pairs. -/
def sortConfigsByAcqValue (acq : Configuration → Int) (tie : Nat → Int)
    (configs : List Configuration) : List (Int × Configuration) :=
  let keyed := configs.enum.map fun ic => (acq ic.2, tie ic.1, ic.2)
  let sorted := List.insertionSort keyRel keyed
  sorted.reverse.map fun t => (t.1, t.2.2)

/-- Descending-by-score comparison of Python's
`list.sort(reverse=True, key=lambda x: x[0])`. -/
def descRel (a b : Int × Configuration) : Prop :=
  b.1 ≤ a.1

instance : DecidableRel descRel := fun a b => by
  unfold descRel; infer_instance

instance : IsTotal (Int × Configuration) descRel :=
  ⟨fun a b => Int.le_total b.1 a.1⟩

instance : IsTrans (Int × Configuration) descRel :=
  ⟨fun _ _ _ hab hbc => le_trans hbc hab⟩

/-- Python's stable `list.sort(reverse=True, key=lambda x: x[0])`. -/
def sortDesc (l : List (Int × Configuration)) : List (Int × Configuration) :=
  List.insertionSort descRel l

/-! ### LocalSearch -/

/-- The neighbor scan of `LocalSearch._one_iter` (the `for neighbor in
all_neighbors` loop): walk the neighborhood in order; a neighbor scoring
equal to the incumbent is appended to the plateau-candidate list
`neighbors`; the first neighbor scoring strictly higher stops the scan
(`break`).  Returns the adopted improving neighbor (if any) and the
plateau candidates collected before the scan stopped. -/
def scanNeighbors (acq : Configuration → Int) (acqInc : Int) :
    List Configuration → Option Configuration × List Configuration
  | [] => (none, [])
  | n :: rest =>
    if acq n = acqInc then
      let r := scanNeighbors acq acqInc rest
      (r.1, n :: r.2)
    else if acqInc < acq n then
      (some n, [])
    else
      scanNeighbors acq acqInc rest

/-- The `while True` climb loop of `LocalSearch._one_iter`, with an
explicit fuel bound (`none` models a run that does not terminate within
`fuel` iterations).  State: current incumbent, its acquisition value,
`local_search_steps`, `n_no_improvements`, and the counter into the
`rng.randint` stream used to seed each neighborhood.  On success returns
`(acq_val_incumbent, incumbent, local_search_steps)`. -/
def oneIterAux (acq : Configuration → Int)
    (nbhd : Configuration → Nat → List Configuration)
    (maxIter : Option Nat) (npw : Nat) :
    Nat → Configuration → Int → Nat → Nat → Nat → Option (Int × Configuration × Nat)
  | 0, _, _, _, _, _ => none
  | fuel + 1, inc, acqInc, steps, nNoImp, rngIdx =>
    match (scanNeighbors acq acqInc (nbhd inc rngIdx)).1,
        (scanNeighbors acq acqInc (nbhd inc rngIdx)).2 with
    | some n, _ =>
      if maxIter = some (steps + 1) then
        some (acq n, n, steps + 1)
      else
        oneIterAux acq nbhd maxIter npw fuel n (acq n) (steps + 1) nNoImp (rngIdx + 1)
    | none, p :: _ =>
      if nNoImp < npw then
        if maxIter = some (steps + 1) then
          some (acqInc, p, steps + 1)
        else
          oneIterAux acq nbhd maxIter npw fuel p acqInc (steps + 1) (nNoImp + 1) (rngIdx + 1)
      else
        some (acqInc, inc, steps + 1)
    | none, [] =>
      some (acqInc, inc, steps + 1)

/-- `LocalSearch._one_iter` started from a seed configuration: the
incumbent starts at the seed and its score at the seed's acquisition
value; counters start at zero. -/
def oneIter (acq : Configuration → Int)
    (nbhd : Configuration → Nat → List Configuration)
    (maxIter : Option Nat) (npw : Nat) (fuel : Nat)
    (seed : Configuration) : Option (Int × Configuration × Nat) :=
  oneIterAux acq nbhd maxIter npw fuel seed (acq seed) 0 0 0

/-- `LocalSearch._get_initial_points`: with an empty history draw
`num` random configurations (`sampler` models
`config_space.sample_configuration(size)` as a stream of batched draws);
otherwise sort all previously evaluated configurations by acquisition
value and keep the best `min (length, num)` of them. -/
def getInitialPoints (acq : Configuration → Int) (tie : Nat → Int)
    (sampler : Nat → Nat → List Configuration) (r : Nat)
    (num : Nat) (rh : RunHistory) : List Configuration :=
  if rh.data.isEmpty then
    sampler r num
  else
    ((sortConfigsByAcqValue acq tie rh.allConfigs).take
      (min (sortConfigsByAcqValue acq tie rh.allConfigs).length num)).map Prod.snd

/-- The seed-point computation of `LocalSearch._maximize`:
`num_configurations_by_local_search = min(len(runhistory.data), num_points)`
followed by `_get_initial_points`. -/
def localSearchInitPoints (acq : Configuration → Int) (tie : Nat → Int)
    (sampler : Nat → Nat → List Configuration) (r : Nat)
    (rh : RunHistory) (numPoints : Nat) : List Configuration :=
  getInitialPoints acq tie sampler r (min rh.data.length numPoints) rh

/-- Sequencing of fallible climbs: `some` of all results when every climb
terminates within its fuel, `none` otherwise. -/
def mapOptionList (f : α → Option β) : List α → Option (List β)
  | [] => some []
  | x :: xs =>
    match f x, mapOptionList f xs with
    | some y, some ys => some (y :: ys)
    | _, _ => none

/-- `LocalSearch._maximize`: climb from every initial point, tag each
result's configuration with origin `"Local Search"`, shuffle the
collected results (`shuffle` models `rng.shuffle`), then sort descending
by acquisition value. -/
def localMaximize (acq : Configuration → Int) (tie : Nat → Int)
    (nbhd : Configuration → Nat → List Configuration)
    (sampler : Nat → Nat → List Configuration)
    (shuffle : List (Int × Configuration) → List (Int × Configuration))
    (maxIter : Option Nat) (npw : Nat) (rh : RunHistory)
    (numPoints : Nat) (r : Nat) (fuel : Nat) :
    Option (List (Int × Configuration)) :=
  (mapOptionList (fun p =>
      (oneIter acq nbhd maxIter npw fuel p).map fun res =>
        (res.1, setOrigin res.2.1 "Local Search"))
    (localSearchInitPoints acq tie sampler r rh numPoints)).map
    fun results => sortDesc (shuffle results)

/-! ### RandomSearch -/

/-- `RandomSearch._maximize`: one batched draw of size `numPoints` when
`numPoints > 1`, else one draw of size 1.  With `_sorted` set, tag
origins `"Random Search (sorted)"` and rank via the shared sort;
otherwise tag origins `"Random Search"` and return all pairs with score
0 in draw order. -/
def randomSearchMaximize (acq : Configuration → Int) (tie : Nat → Int)
    (sampler : Nat → Nat → List Configuration) (r : Nat)
    (numPoints : Int) (isSorted : Bool) : List (Int × Configuration) :=
  let randConfigs := if 1 < numPoints then sampler r numPoints.toNat else sampler r 1
  if isSorted then
    sortConfigsByAcqValue acq tie
      (randConfigs.map fun c => setOrigin c "Random Search (sorted)")
  else
    (randConfigs.map fun c => setOrigin c "Random Search").map fun c => ((0 : Int), c)

/-! ### InterleavedLocalAndRandomSearch -/

/-- `InterleavedLocalAndRandomSearch.maximize`: ask `LocalSearch` for 10
points (a hardcoded constant, with the local search's default
`max_iterations = None` and `n_steps_plateau_walk = 10`), ask
`RandomSearch` for `num_points -` (number of local results) sorted
results, concatenate random-search results first, sort descending by
score, and wrap the configurations in a fresh `ChallengerList`. -/
def ILRSmaximize (acq : Configuration → Int) (tie : Nat → Int)
    (nbhd : Configuration → Nat → List Configuration)
    (sampler : Nat → Nat → List Configuration)
    (shuffle : List (Int × Configuration) → List (Int × Configuration))
    (rh : RunHistory) (numPoints : Int) (rL rR : Nat) (fuel : Nat) :
    Option ChallengerListState :=
  (localMaximize acq tie nbhd sampler shuffle none 10 rh 10 rL fuel).map fun locals =>
    let randoms := randomSearchMaximize acq tie sampler rR
      ((numPoints - locals.length : Int)) true
    let combined := sortDesc (randoms ++ locals)
    initCL (combined.map Prod.snd)

/-- `AcquisitionFunctionMaximizer._maximize`, the abstract primitive:
`raise NotImplementedError()`. -/
def abstractRank (rh : RunHistory) (numPoints : Int) :
    Except MaximizerError (List (Int × Configuration)) :=
  Except.error MaximizerError.notImplemented

/-- `InterleavedLocalAndRandomSearch._maximize`:
`raise NotImplementedError()`. -/
def interleavedRank (rh : RunHistory) (numPoints : Int) :
    Except MaximizerError (List (Int × Configuration)) :=
  Except.error MaximizerError.notImplemented

/-! ### Concrete instances used to exercise the theorems -/

/-- Acquisition function reading off the coordinate. -/
def acqVec (c : Configuration) : Int := c.vector

/-- Constant acquisition function. -/
def acqZero (_ : Configuration) : Int := 0

def cV0 : Configuration := ⟨0, "a"⟩

def cV1 : Configuration := ⟨1, "b"⟩

def cV2 : Configuration := ⟨2, "c"⟩

/-- Neighborhood generator: an equal-scoring neighbor at coordinate 0,
an improving neighbor elsewhere. -/
def nbhdW (c : Configuration) (_ : Nat) : List Configuration :=
  if c.vector = 0 then [⟨0, "z"⟩] else [⟨c.vector + 1, "w"⟩]

/-- Neighborhood generator with empty neighborhoods. -/
def nbhdNone (_ : Configuration) (_ : Nat) : List Configuration := []

/-- Neighborhood generator producing one equal-scoring copy. -/
def nbhdSelf (c : Configuration) (_ : Nat) : List Configuration := [⟨c.vector, "e"⟩]

/-- A random-configuration stream. -/
def sampleW (i : Nat) : Configuration := ⟨100 + i, "x"⟩

/-- A batched random-draw stream returning `k` configurations. -/
def samplerW (r : Nat) (k : Nat) : List Configuration :=
  (List.range k).map fun i => ⟨200 + r + i, "s"⟩

/-- Constant tie-break stream. -/
def tieZero (_ : Nat) : Int := 0

/-- The identity permutation as a shuffle. -/
def shuffleId (l : List (Int × Configuration)) : List (Int × Configuration) := l

/-- A history of ten runs over ten distinct configurations. -/
def rh10def : RunHistory :=
  ⟨List.range 10, (List.range 10).map fun i => ⟨i, "h"⟩⟩

/-- The local-search results produced from `rh10def` with empty
neighborhoods: the ten history configurations in descending score
order, relabelled "Local Search". -/
def locals10 : List (Int × Configuration) :=
  (List.range 10).reverse.map fun (i : Nat) => ((i : Int), ⟨i, "Local Search"⟩)

/-! ## Theorems

### ChallengerList (C2) -/

theorem CLout_from (sample : Nat → Configuration) :
    ∀ (m : Nat) (chals : List Configuration) (k r extra : Nat),
      chals.length - k = m → k ≤ chals.length →
      CLout sample (2 * m + 1 + extra) ⟨chals, k, false, r⟩ =
        clPattern sample (chals.drop k) r := by
  intro m
  induction m with
  | zero =>
    intro chals k r extra hm hk
    have hkl : k = chals.length := by omega
    subst hkl
    have h1 : 2 * 0 + 1 + extra = extra + 1 := by omega
    rw [h1]
    simp [CLout, CLnext, clPattern, List.drop_length]
  | succ m ih =>
    intro chals k r extra hm hk
    have hlt : k < chals.length := by omega
    have h1 : 2 * (m + 1) + 1 + extra = (2 * m + 1 + extra) + 1 + 1 := by omega
    rw [h1]
    have hget : chals[k]? = some (chals.get ⟨k, hlt⟩) := by
      rw [List.getElem?_eq_getElem hlt, List.get_eq_getElem]
    have step1 : CLnext sample ⟨chals, k, false, r⟩ =
        some (chals.get ⟨k, hlt⟩, ⟨chals, k + 1, true, r⟩) := by
      simp [CLnext, hget, Nat.ne_of_lt hlt]
    have step2 : CLnext sample ⟨chals, k + 1, true, r⟩ =
        some (setOrigin (sample r) "Random Search", ⟨chals, k + 1, false, r + 1⟩) := by
      simp [CLnext]
    have hdrop : chals.drop k = chals.get ⟨k, hlt⟩ :: chals.drop (k + 1) := by
      rw [List.get_eq_getElem]
      exact List.drop_eq_getElem_cons hlt
    rw [hdrop]
    rw [show ((2 * m + 1 + extra) + 1 + 1) = ((2 * m + 1 + extra) + 1) + 1 from rfl]
    simp only [CLout, step1, step2]
    simp only [clPattern]
    congr 1
    congr 1
    exact ih chals (k + 1) (r + 1) extra (by omega) (by omega)

theorem clPattern_length (sample : Nat → Configuration) :
    ∀ (l : List Configuration) (r : Nat),
      (clPattern sample l r).length = 2 * l.length := by
  intro l
  induction l with
  | nil => intro r; simp [clPattern]
  | cons c rest ih =>
    intro r
    simp only [clPattern, List.length_cons, ih]
    omega

theorem clPattern_even (sample : Nat → Configuration) :
    ∀ (l : List Configuration) (r i : Nat), i < l.length →
      (clPattern sample l r)[2 * i]? = l[i]? := by
  intro l
  induction l with
  | nil => intro r i hi; simp at hi
  | cons c rest ih =>
    intro r i hi
    match i with
    | 0 => simp [clPattern]
    | j + 1 =>
      have h2 : 2 * (j + 1) = (2 * j) + 1 + 1 := by omega
      rw [h2]
      simp only [clPattern, List.getElem?_cons_succ]
      exact ih (r + 1) j (by simpa using hi)

theorem clPattern_odd (sample : Nat → Configuration) :
    ∀ (l : List Configuration) (r i : Nat), i < l.length →
      ((clPattern sample l r)[2 * i + 1]?).map Configuration.origin =
        some "Random Search" := by
  intro l
  induction l with
  | nil => intro r i hi; simp at hi
  | cons c rest ih =>
    intro r i hi
    match i with
    | 0 => simp [clPattern, setOrigin]
    | j + 1 =>
      have h2 : 2 * (j + 1) + 1 = (2 * j + 1) + 1 + 1 := by omega
      rw [h2]
      simp only [clPattern, List.getElem?_cons_succ]
      exact ih (r + 1) j (by simpa using hi)

/-- C2: iterating the `ChallengerList` built from a challenger list of
length `N` yields exactly `2 * N` configurations before `StopIteration`
(giving it any further fuel produces nothing more); elements at even
positions are the challenger-list elements in their original order;
elements at odd positions are fresh random draws carrying origin
`"Random Search"`; and for an empty list the iterator yields nothing. -/
theorem challenger_list_yield_pattern (sample : Nat → Configuration)
    (chals : List Configuration) :
    (CLout sample (2 * chals.length + 1) (initCL chals)).length = 2 * chals.length ∧
    (∀ i, i < chals.length →
      (CLout sample (2 * chals.length + 1) (initCL chals))[2 * i]? = chals[i]?) ∧
    (∀ i, i < chals.length →
      ((CLout sample (2 * chals.length + 1) (initCL chals))[2 * i + 1]?).map
        Configuration.origin = some "Random Search") ∧
    (chals = [] → CLout sample (2 * chals.length + 1) (initCL chals) = []) ∧
    (∀ extra, CLout sample (2 * chals.length + 1 + extra) (initCL chals) =
      CLout sample (2 * chals.length + 1) (initCL chals)) := by
  have hbase : ∀ extra, CLout sample (2 * chals.length + 1 + extra) (initCL chals) =
      clPattern sample chals 0 := by
    intro extra
    have h := CLout_from sample chals.length chals 0 0 extra (by omega) (by omega)
    simpa [initCL] using h
  have h0 : CLout sample (2 * chals.length + 1) (initCL chals) =
      clPattern sample chals 0 := by
    simpa using hbase 0
  refine ⟨?_, ?_, ?_, ?_, ?_⟩
  · rw [h0, clPattern_length]
  · intro i hi
    rw [h0]
    exact clPattern_even sample chals 0 i hi
  · intro i hi
    rw [h0]
    exact clPattern_odd sample chals 0 i hi
  · intro hnil
    rw [h0, hnil]
    rfl
  · intro extra
    rw [h0, hbase extra]

/-- C2 witness: with the challenger list `[cV1, cV2]` the iterator
yields 4 elements, position 2 holds `cV2`, and position 3 is a random
draw labelled "Random Search". -/
theorem challenger_list_yield_pattern_witness :
    (CLout sampleW 5 (initCL [cV1, cV2])).length = 4 ∧
    (CLout sampleW 5 (initCL [cV1, cV2]))[2]? = some cV2 ∧
    ((CLout sampleW 5 (initCL [cV1, cV2]))[3]?).map Configuration.origin =
      some "Random Search" := by
  have h := challenger_list_yield_pattern sampleW [cV1, cV2]
  refine ⟨?_, ?_, ?_⟩
  · simpa using h.1
  · simpa using h.2.1 1 (by decide)
  · simpa using h.2.2.1 1 (by decide)

/-! ### LocalSearch neighbor scan and climb loop (C1, C6, C7, C10) -/

theorem scanNeighbors_fst_gt (acq : Configuration → Int) (acqInc : Int) :
    ∀ (ns : List Configuration) (n : Configuration),
      (scanNeighbors acq acqInc ns).1 = some n → acqInc < acq n := by
  intro ns
  induction ns with
  | nil => intro n h; simp [scanNeighbors] at h
  | cons m rest ih =>
    intro n h
    simp only [scanNeighbors] at h
    split at h
    · exact ih n h
    · split at h
      · next h2 => exact Option.some.inj h ▸ h2
      · exact ih n h

theorem scanNeighbors_snd_eq (acq : Configuration → Int) (acqInc : Int) :
    ∀ (ns : List Configuration) (p : Configuration),
      p ∈ (scanNeighbors acq acqInc ns).2 → acq p = acqInc := by
  intro ns
  induction ns with
  | nil => intro p h; simp [scanNeighbors] at h
  | cons m rest ih =>
    intro p h
    simp only [scanNeighbors] at h
    split at h
    · next h1 =>
      rcases List.mem_cons.mp h with h2 | h2
      · exact h2 ▸ h1
      · exact ih p h2
    · split at h
      · simp at h
      · exact ih p h

theorem scanNeighbors_break (acq : Configuration → Int) (acqInc : Int) :
    ∀ (fore : List Configuration) (n : Configuration) (post : List Configuration),
      (∀ m ∈ fore, ¬ acqInc < acq m) → acqInc < acq n →
      scanNeighbors acq acqInc (fore ++ n :: post) =
        (some n, fore.filter fun m => acq m == acqInc) := by
  intro fore
  induction fore with
  | nil =>
    intro n post _ hn
    have h1 : ¬ acq n = acqInc := fun h => absurd (h ▸ hn) (lt_irrefl _)
    simp only [List.nil_append, scanNeighbors]
    rw [if_neg h1, if_pos hn]
    simp
  | cons m fore ih =>
    intro n post hfore hn
    have hm : ¬ acqInc < acq m := hfore m (List.mem_cons_self m fore)
    have hrec := ih n post (fun x hx => hfore x (List.mem_cons_of_mem m hx)) hn
    by_cases h1 : acq m = acqInc
    · simp only [List.cons_append, scanNeighbors, List.append_eq]
      rw [if_pos h1, hrec]
      simp [List.filter_cons, h1]
    · simp only [List.cons_append, scanNeighbors, List.append_eq]
      rw [if_neg h1, if_neg hm, hrec]
      simp [List.filter_cons, h1]

theorem scanNeighbors_no_improver (acq : Configuration → Int) (acqInc : Int) :
    ∀ (ns : List Configuration), (∀ m ∈ ns, ¬ acqInc < acq m) →
      scanNeighbors acq acqInc ns =
        (none, ns.filter fun m => acq m == acqInc) := by
  intro ns
  induction ns with
  | nil => intro _; simp [scanNeighbors]
  | cons m rest ih =>
    intro h
    have hm : ¬ acqInc < acq m := h m (List.mem_cons_self m rest)
    have hrec := ih fun x hx => h x (List.mem_cons_of_mem m hx)
    by_cases h1 : acq m = acqInc
    · simp only [scanNeighbors]
      rw [if_pos h1, hrec]
      simp [List.filter_cons, h1]
    · simp only [scanNeighbors]
      rw [if_neg h1, if_neg hm, hrec]
      simp [List.filter_cons, h1]

/-- C1: in a climb step of `LocalSearch._one_iter`, (i) scanning stops at
the first neighbor scoring strictly above the incumbent and returns it
with the equal-scoring neighbors seen before it — the rest of the
neighborhood (`post`) does not influence the result; (ii) when no
neighbor improves, the scan returns no improver and records exactly the
equal-scoring neighbors as plateau candidates; (iii) an improving
neighbor is immediately adopted as the incumbent (with its score) and
the climb continues; (iv) with no improver, at least one plateau
candidate, and fewer than `n_steps_plateau_walk` plateau moves so far,
the climb moves to the first recorded plateau candidate (score
unchanged, plateau counter incremented) and continues. -/
theorem localsearch_first_improvement_and_plateau
    (acq : Configuration → Int) (nbhd : Configuration → Nat → List Configuration)
    (maxIter : Option Nat) (npw : Nat) :
    (∀ (acqInc : Int) (fore : List Configuration) (n : Configuration)
      (post : List Configuration),
      (∀ m ∈ fore, ¬ acqInc < acq m) → acqInc < acq n →
      scanNeighbors acq acqInc (fore ++ n :: post) =
        (some n, fore.filter fun m => acq m == acqInc)) ∧
    (∀ (acqInc : Int) (ns : List Configuration),
      (∀ m ∈ ns, ¬ acqInc < acq m) →
      scanNeighbors acq acqInc ns = (none, ns.filter fun m => acq m == acqInc)) ∧
    (∀ (fuel steps nNoImp rngIdx : Nat) (inc n : Configuration) (acqInc : Int),
      (scanNeighbors acq acqInc (nbhd inc rngIdx)).1 = some n →
      maxIter ≠ some (steps + 1) →
      oneIterAux acq nbhd maxIter npw (fuel + 1) inc acqInc steps nNoImp rngIdx =
        oneIterAux acq nbhd maxIter npw fuel n (acq n) (steps + 1) nNoImp (rngIdx + 1)) ∧
    (∀ (fuel steps nNoImp rngIdx : Nat) (inc p : Configuration) (acqInc : Int)
      (rest : List Configuration),
      scanNeighbors acq acqInc (nbhd inc rngIdx) = (none, p :: rest) →
      nNoImp < npw → maxIter ≠ some (steps + 1) →
      oneIterAux acq nbhd maxIter npw (fuel + 1) inc acqInc steps nNoImp rngIdx =
        oneIterAux acq nbhd maxIter npw fuel p acqInc (steps + 1) (nNoImp + 1)
          (rngIdx + 1)) := by
  refine ⟨?_, ?_, ?_, ?_⟩
  · intro acqInc fore n post hfore hn
    exact scanNeighbors_break acq acqInc fore n post hfore hn
  · intro acqInc ns hns
    exact scanNeighbors_no_improver acq acqInc ns hns
  · intro fuel steps nNoImp rngIdx inc n acqInc hscan hmax
    simp only [oneIterAux, hscan]
    rw [if_neg hmax]
  · intro fuel steps nNoImp rngIdx inc p acqInc rest hscan hnp hmax
    simp only [oneIterAux, hscan]
    rw [if_pos hnp, if_neg hmax]

/-- C1 witness: concrete scans and climb steps exercising all four parts
of `localsearch_first_improvement_and_plateau`. -/
theorem localsearch_first_improvement_and_plateau_witness :
    (scanNeighbors acqVec 1 ([cV1] ++ cV2 :: [cV0]) =
      (some cV2, [cV1].filter fun m => acqVec m == 1)) ∧
    (scanNeighbors acqVec 1 [cV1, cV0] =
      (none, [cV1, cV0].filter fun m => acqVec m == 1)) ∧
    (oneIterAux acqVec nbhdW none 10 3 cV1 1 0 0 0 =
      oneIterAux acqVec nbhdW none 10 2 ⟨2, "w"⟩ (acqVec ⟨2, "w"⟩) 1 0 1) ∧
    (oneIterAux acqVec nbhdW none 10 3 cV0 0 0 0 0 =
      oneIterAux acqVec nbhdW none 10 2 ⟨0, "z"⟩ 0 1 1 1) := by
  have h := localsearch_first_improvement_and_plateau acqVec nbhdW none 10
  refine ⟨?_, ?_, ?_, ?_⟩
  · exact h.1 1 [cV1] cV2 [cV0] (by decide) (by decide)
  · exact h.2.1 1 [cV1, cV0] (by decide)
  · exact h.2.2.1 2 0 0 0 cV1 ⟨2, "w"⟩ 1 (by decide) (by decide)
  · exact h.2.2.2 2 0 0 0 cV0 ⟨0, "z"⟩ 0 [] (by decide) (by decide) (by decide)

theorem oneIterAux_term (acq : Configuration → Int)
    (nbhd : Configuration → Nat → List Configuration) (npw K : Nat) :
    ∀ (fuel : Nat) (inc : Configuration) (acqInc : Int) (steps nNoImp rngIdx : Nat),
      steps < K → K ≤ steps + fuel →
      ∃ v c s, oneIterAux acq nbhd (some K) npw fuel inc acqInc steps nNoImp rngIdx =
        some (v, c, s) ∧ s ≤ K := by
  intro fuel
  induction fuel with
  | zero => intro inc acqInc steps nNoImp rngIdx h1 h2; omega
  | succ fuel ih =>
    intro inc acqInc steps nNoImp rngIdx h1 h2
    simp only [oneIterAux]
    rcases hscan : (scanNeighbors acq acqInc (nbhd inc rngIdx)).1 with _ | n
    · rcases hplat : (scanNeighbors acq acqInc (nbhd inc rngIdx)).2 with _ | ⟨p, rest⟩
      · exact ⟨acqInc, inc, steps + 1, rfl, by omega⟩
      · dsimp only
        by_cases hnp : nNoImp < npw
        · rw [if_pos hnp]
          by_cases hK : (some K : Option Nat) = some (steps + 1)
          · rw [if_pos hK]
            have hK2 : K = steps + 1 := Option.some.inj hK
            exact ⟨acqInc, p, steps + 1, rfl, by omega⟩
          · rw [if_neg hK]
            have hK2 : K ≠ steps + 1 := fun h => hK (by rw [h])
            exact ih p acqInc (steps + 1) (nNoImp + 1) (rngIdx + 1)
              (by omega) (by omega)
        · rw [if_neg hnp]
          exact ⟨acqInc, inc, steps + 1, rfl, by omega⟩
    · dsimp only
      by_cases hK : (some K : Option Nat) = some (steps + 1)
      · rw [if_pos hK]
        have hK2 : K = steps + 1 := Option.some.inj hK
        exact ⟨acq n, n, steps + 1, rfl, by omega⟩
      · rw [if_neg hK]
        have hK2 : K ≠ steps + 1 := fun h => hK (by rw [h])
        exact ih n (acq n) (steps + 1) nNoImp (rngIdx + 1) (by omega) (by omega)

/-- C6: a climb run with `max_iterations = K` (for any positive `K`)
terminates within fuel `K` — i.e. it performs at most `K`
neighbor-expansion steps — and its recorded step count is at most `K`. -/
theorem localsearch_max_iterations_bound (acq : Configuration → Int)
    (nbhd : Configuration → Nat → List Configuration) (npw K : Nat)
    (seed : Configuration) (hK : 1 ≤ K) :
    ∃ v c s, oneIter acq nbhd (some K) npw K seed = some (v, c, s) ∧ s ≤ K := by
  unfold oneIter
  exact oneIterAux_term acq nbhd npw K K seed (acq seed) 0 0 0 (by omega) (by omega)

/-- C6 witness: a concrete climb with `max_iterations = 2` terminates
with at most 2 steps. -/
theorem localsearch_max_iterations_bound_witness :
    ∃ v c s, oneIter acqVec nbhdW (some 2) 10 2 cV1 = some (v, c, s) ∧ s ≤ 2 :=
  localsearch_max_iterations_bound acqVec nbhdW 10 2 cV1 (by decide)

/-- C7: with `n_steps_plateau_walk = 0`, a climb whose first neighborhood
scan finds no strictly improving neighbor terminates after that single
step and returns the seed (at the seed's acquisition value), regardless
of `max_iterations` and of how many equal-scoring neighbors exist. -/
theorem localsearch_plateau_walk_zero (acq : Configuration → Int)
    (nbhd : Configuration → Nat → List Configuration) (maxIter : Option Nat)
    (seed : Configuration) (fuel : Nat)
    (h : (scanNeighbors acq (acq seed) (nbhd seed 0)).1 = none) (hf : 1 ≤ fuel) :
    oneIter acq nbhd maxIter 0 fuel seed = some (acq seed, seed, 1) := by
  obtain ⟨f, rfl⟩ : ∃ f, fuel = f + 1 := ⟨fuel - 1, by omega⟩
  unfold oneIter
  simp only [oneIterAux, h]
  rcases hplat : (scanNeighbors acq (acq seed) (nbhd seed 0)).2 with _ | ⟨p, rest⟩
  · rfl
  · dsimp only
    rw [if_neg (by omega)]

/-- C7 witness: a seed whose only neighbor scores equal, with
`n_steps_plateau_walk = 0`, returns the seed after one step. -/
theorem localsearch_plateau_walk_zero_witness :
    oneIter acqVec nbhdSelf none 0 3 cV1 = some (acqVec cV1, cV1, 1) :=
  localsearch_plateau_walk_zero acqVec nbhdSelf none cV1 3 (by decide) (by decide)

theorem oneIterAux_score_inv (acq : Configuration → Int)
    (nbhd : Configuration → Nat → List Configuration)
    (maxIter : Option Nat) (npw : Nat) :
    ∀ (fuel : Nat) (inc : Configuration) (acqInc : Int)
      (steps nNoImp rngIdx : Nat) (v : Int) (c : Configuration) (s : Nat),
      acqInc = acq inc →
      oneIterAux acq nbhd maxIter npw fuel inc acqInc steps nNoImp rngIdx =
        some (v, c, s) →
      v = acq c ∧ acqInc ≤ v := by
  intro fuel
  induction fuel with
  | zero =>
    intro inc acqInc steps nNoImp rngIdx v c s hinv h
    simp [oneIterAux] at h
  | succ fuel ih =>
    intro inc acqInc steps nNoImp rngIdx v c s hinv h
    simp only [oneIterAux] at h
    rcases hscan : (scanNeighbors acq acqInc (nbhd inc rngIdx)).1 with _ | n
    · rw [hscan] at h
      rcases hplat : (scanNeighbors acq acqInc (nbhd inc rngIdx)).2 with _ | ⟨p, rest⟩
      · rw [hplat] at h
        have h2 := Option.some.inj h
        injection h2 with hv h3
        injection h3 with hc hs
        subst hv; subst hc
        exact ⟨hinv, le_refl _⟩
      · rw [hplat] at h
        dsimp only at h
        have hpeq : acq p = acqInc := by
          apply scanNeighbors_snd_eq acq acqInc (nbhd inc rngIdx) p
          rw [hplat]
          exact List.mem_cons_self p rest
        split at h
        · split at h
          · have h2 := Option.some.inj h
            injection h2 with hv h3
            injection h3 with hc hs
            subst hv; subst hc
            exact ⟨hpeq.symm, le_refl _⟩
          · exact ih p acqInc (steps + 1) (nNoImp + 1) (rngIdx + 1) v c s hpeq.symm h
        · have h2 := Option.some.inj h
          injection h2 with hv h3
          injection h3 with hc hs
          subst hv; subst hc
          exact ⟨hinv, le_refl _⟩
    · rw [hscan] at h
      dsimp only at h
      have hgt : acqInc < acq n :=
        scanNeighbors_fst_gt acq acqInc (nbhd inc rngIdx) n hscan
      split at h
      · have h2 := Option.some.inj h
        injection h2 with hv h3
        injection h3 with hc hs
        subst hv; subst hc
        exact ⟨rfl, le_of_lt hgt⟩
      · have hrec := ih n (acq n) (steps + 1) nNoImp (rngIdx + 1) v c s rfl h
        exact ⟨hrec.1, le_trans (le_of_lt hgt) hrec.2⟩

/-- C10: whenever a climb (`LocalSearch._one_iter`) returns, the
returned score equals the acquisition value of the returned
configuration and is at least the acquisition value of the seed: the
incumbent's score never decreases across the climb. -/
theorem localsearch_climb_score_invariant (acq : Configuration → Int)
    (nbhd : Configuration → Nat → List Configuration)
    (maxIter : Option Nat) (npw fuel : Nat) (seed : Configuration)
    (v : Int) (c : Configuration) (s : Nat)
    (h : oneIter acq nbhd maxIter npw fuel seed = some (v, c, s)) :
    v = acq c ∧ acq seed ≤ v :=
  oneIterAux_score_inv acq nbhd maxIter npw fuel seed (acq seed) 0 0 0 v c s rfl h

/-- C10 witness: a concrete climb returning a score equal to the
returned configuration's acquisition value and at least the seed's. -/
theorem localsearch_climb_score_invariant_witness :
    (0 : Int) = acqZero cV1 ∧ acqZero cV1 ≤ 0 :=
  localsearch_climb_score_invariant acqZero nbhdNone none 10 1 cV1 0 cV1 1 (by decide)

/-! ### Tie-break sorting (C3) and seed selection (C4) -/

theorem sortConfigs_perm (acq : Configuration → Int) (tie : Nat → Int)
    (configs : List Configuration) :
    ((sortConfigsByAcqValue acq tie configs).map Prod.snd).Perm configs := by
  unfold sortConfigsByAcqValue
  simp only [List.map_map]
  have h1 : ((List.insertionSort keyRel
      (configs.enum.map fun ic => (acq ic.2, tie ic.1, ic.2))).reverse).Perm
      (configs.enum.map fun ic => (acq ic.2, tie ic.1, ic.2)) :=
    (List.reverse_perm _).trans (List.perm_insertionSort _ _)
  have h2 := h1.map fun t : Int × Int × Configuration => t.2.2
  refine h2.trans ?_
  rw [List.map_map]
  have h3 : ((fun t : Int × Int × Configuration => t.2.2) ∘
      fun ic : Nat × Configuration => (acq ic.2, tie ic.1, ic.2)) = Prod.snd := rfl
  rw [h3, List.enum_map_snd]

theorem sortConfigs_sorted (acq : Configuration → Int) (tie : Nat → Int)
    (configs : List Configuration) :
    List.Pairwise (· ≥ ·) ((sortConfigsByAcqValue acq tie configs).map Prod.fst) := by
  unfold sortConfigsByAcqValue
  simp only [List.map_map]
  rw [List.pairwise_map, List.pairwise_reverse]
  have hs := List.sorted_insertionSort keyRel
    (configs.enum.map fun ic => (acq ic.2, tie ic.1, ic.2))
  refine hs.imp ?_
  intro a b hab
  rcases hab with h | ⟨h, _⟩
  · exact le_of_lt h
  · exact le_of_eq h

theorem sortConfigs_mem_fst (acq : Configuration → Int) (tie : Nat → Int)
    (configs : List Configuration) :
    ∀ s ∈ sortConfigsByAcqValue acq tie configs, s.1 = acq s.2 := by
  intro s hs
  unfold sortConfigsByAcqValue at hs
  simp only [List.mem_map, List.mem_reverse, List.mem_insertionSort] at hs
  obtain ⟨t, ht, rfl⟩ := hs
  obtain ⟨ic, _, rfl⟩ := ht
  rfl

theorem sortConfigs_length (acq : Configuration → Int) (tie : Nat → Int)
    (configs : List Configuration) :
    (sortConfigsByAcqValue acq tie configs).length = configs.length := by
  simp [sortConfigsByAcqValue]

/-- C3: `_sort_configs_by_acq_value` returns, for every non-empty input,
a list of (score, configuration) pairs whose score sequence is
non-increasing and whose configurations are a permutation of the
input. -/
theorem sort_configs_by_acq_value_sorted_perm (acq : Configuration → Int)
    (tie : Nat → Int) (configs : List Configuration) (h : configs ≠ []) :
    List.Pairwise (· ≥ ·) ((sortConfigsByAcqValue acq tie configs).map Prod.fst) ∧
    ((sortConfigsByAcqValue acq tie configs).map Prod.snd).Perm configs :=
  ⟨sortConfigs_sorted acq tie configs, sortConfigs_perm acq tie configs⟩

/-- C3 witness: the ranking invariant at a concrete non-empty input. -/
theorem sort_configs_by_acq_value_sorted_perm_witness :
    List.Pairwise (· ≥ ·)
      ((sortConfigsByAcqValue acqVec tieZero [cV1, cV0, cV2]).map Prod.fst) ∧
    ((sortConfigsByAcqValue acqVec tieZero [cV1, cV0, cV2]).map Prod.snd).Perm
      [cV1, cV0, cV2] :=
  sort_configs_by_acq_value_sorted_perm acqVec tieZero [cV1, cV0, cV2] (by decide)

theorem sortConfigs_head_dominator (acq : Configuration → Int) (tie : Nat → Int)
    (configs : List Configuration) (d : Configuration)
    (hd : d ∈ configs) (hdom : ∀ c ∈ configs, c ≠ d → acq c < acq d) :
    ∃ rest, sortConfigsByAcqValue acq tie configs = (acq d, d) :: rest := by
  have hperm := sortConfigs_perm acq tie configs
  have hsorted := sortConfigs_sorted acq tie configs
  have hfst := sortConfigs_mem_fst acq tie configs
  have hSne : sortConfigsByAcqValue acq tie configs ≠ [] := by
    intro hnil
    have h := hperm
    rw [hnil] at h
    simp only [List.map_nil, List.nil_perm] at h
    rw [h] at hd
    exact absurd hd (List.not_mem_nil d)
  obtain ⟨s0, S2, hcons⟩ := List.exists_cons_of_ne_nil hSne
  have hmem_s0 : s0 ∈ sortConfigsByAcqValue acq tie configs := by
    rw [hcons]; exact List.mem_cons_self _ _
  have hin : s0.2 ∈ configs :=
    hperm.mem_iff.mp (List.mem_map_of_mem Prod.snd hmem_s0)
  obtain ⟨sd, hsd_mem, hsd⟩ : ∃ sd ∈ sortConfigsByAcqValue acq tie configs,
      sd.2 = d := by
    have hmem : d ∈ (sortConfigsByAcqValue acq tie configs).map Prod.snd :=
      hperm.mem_iff.mpr hd
    simpa using hmem
  have hs0d : s0.2 = d := by
    by_contra hne
    have hlt : acq s0.2 < acq d := hdom s0.2 hin hne
    have hsd_ne : sd ≠ s0 := by
      intro h; rw [h] at hsd; exact hne hsd
    have hsd_S2 : sd ∈ S2 := by
      have := hsd_mem
      rw [hcons] at this
      rcases List.mem_cons.mp this with h | h
      · exact absurd h hsd_ne
      · exact h
    have hge : sd.1 ≤ s0.1 := by
      rw [hcons] at hsorted
      simp only [List.map_cons, List.pairwise_cons] at hsorted
      exact hsorted.1 sd.1 (List.mem_map_of_mem Prod.fst hsd_S2)
    have h1 : s0.1 = acq s0.2 := hfst s0 hmem_s0
    have h2 : sd.1 = acq sd.2 := hfst sd hsd_mem
    rw [h1, h2, hsd] at hge
    exact absurd hge (not_le.mpr hlt)
  refine ⟨S2, ?_⟩
  rw [hcons]
  have h1 : s0.1 = acq s0.2 := hfst s0 hmem_s0
  obtain ⟨a, b⟩ := s0
  simp only at hs0d h1
  rw [hs0d] at h1
  rw [hs0d, h1]

/-- C4: `LocalSearch` seed selection switches on history emptiness: with
empty run data the seeds are a random draw from the configuration space;
with non-empty run data the seeds are the top-ranked previously
evaluated configurations under `_sort_configs_by_acq_value`; and when
`num_points ≥ 1` and some previously evaluated configuration strictly
dominates all others in acquisition score, that configuration appears
among the seeds computed by `_maximize`. -/
theorem localsearch_seed_selection (acq : Configuration → Int) (tie : Nat → Int)
    (sampler : Nat → Nat → List Configuration) (r : Nat) (rh : RunHistory)
    (numPoints : Nat) :
    (rh.data = [] →
      ∀ num, getInitialPoints acq tie sampler r num rh = sampler r num) ∧
    (rh.data ≠ [] →
      ∀ num, getInitialPoints acq tie sampler r num rh =
        ((sortConfigsByAcqValue acq tie rh.allConfigs).take
          (min (sortConfigsByAcqValue acq tie rh.allConfigs).length num)).map
          Prod.snd) ∧
    (∀ d, rh.data ≠ [] → 1 ≤ numPoints → d ∈ rh.allConfigs →
      (∀ c ∈ rh.allConfigs, c ≠ d → acq c < acq d) →
      d ∈ localSearchInitPoints acq tie sampler r rh numPoints) := by
  refine ⟨?_, ?_, ?_⟩
  · intro h num
    simp [getInitialPoints, h]
  · intro h num
    simp [getInitialPoints, List.isEmpty_iff, h]
  · intro d hne hnum hd hdom
    obtain ⟨rest, hrest⟩ := sortConfigs_head_dominator acq tie rh.allConfigs d hd hdom
    unfold localSearchInitPoints getInitialPoints
    rw [if_neg (by simp [List.isEmpty_iff, hne]), hrest]
    have hdlen : 1 ≤ rh.data.length := List.length_pos.mpr hne
    obtain ⟨k, hk⟩ : ∃ k, min ((acq d, d) :: rest).length
        (min rh.data.length numPoints) = k + 1 := by
      refine ⟨min ((acq d, d) :: rest).length (min rh.data.length numPoints) - 1, ?_⟩
      simp only [List.length_cons]
      omega
    rw [hk, List.take_succ_cons, List.map_cons]
    exact List.mem_cons_self d _

/-- C4 witness: the empty-history branch returns the random draw, the
non-empty-history branch returns the ranked prefix, and a strictly
dominating configuration appears among the seeds. -/
theorem localsearch_seed_selection_witness :
    (getInitialPoints acqVec tieZero samplerW 0 3 ⟨[], []⟩ = samplerW 0 3) ∧
    (getInitialPoints acqVec tieZero samplerW 0 1 ⟨[0], [cV0, cV2]⟩ =
      ((sortConfigsByAcqValue acqVec tieZero [cV0, cV2]).take
        (min (sortConfigsByAcqValue acqVec tieZero [cV0, cV2]).length 1)).map
        Prod.snd) ∧
    (cV2 ∈ localSearchInitPoints acqVec tieZero samplerW 0 ⟨[0], [cV0, cV2]⟩ 2) := by
  refine ⟨?_, ?_, ?_⟩
  · exact (localsearch_seed_selection acqVec tieZero samplerW 0 ⟨[], []⟩ 2).1 rfl 3
  · exact (localsearch_seed_selection acqVec tieZero samplerW 0
      ⟨[0], [cV0, cV2]⟩ 2).2.1 (by decide) 1
  · exact (localsearch_seed_selection acqVec tieZero samplerW 0
      ⟨[0], [cV0, cV2]⟩ 2).2.2 cV2 (by decide) (by decide) (by decide) (by decide)

/-! ### RandomSearch (C8) and unimplemented rank (C9) -/

/-- C8: `RandomSearch._maximize` performs one draw of size 1 when
`num_points ≤ 1` and one batched draw of size `num_points` otherwise;
with the sorted flag unset every returned pair has score 0 and origin
"Random Search" and the configurations appear in draw order; for
`num_points ≥ 1` exactly `num_points` results are returned — in
particular exactly 1 for `num_points = 1` and exactly 5 for
`num_points = 5`. -/
theorem randomsearch_batch_semantics (acq : Configuration → Int) (tie : Nat → Int)
    (sampler : Nat → Nat → List Configuration) (r : Nat) (n : Int)
    (hlen : ∀ i k, (sampler i k).length = k) :
    (randomSearchMaximize acq tie sampler r n false =
      (if 1 < n then sampler r n.toNat else sampler r 1).map fun c =>
        ((0 : Int), setOrigin c "Random Search")) ∧
    (∀ p ∈ randomSearchMaximize acq tie sampler r n false,
      p.1 = 0 ∧ p.2.origin = "Random Search") ∧
    ((randomSearchMaximize acq tie sampler r n false).map Prod.snd =
      (if 1 < n then sampler r n.toNat else sampler r 1).map
        fun c => setOrigin c "Random Search") ∧
    (1 ≤ n → (randomSearchMaximize acq tie sampler r n false).length = n.toNat) ∧
    (n = 1 → (randomSearchMaximize acq tie sampler r n false).length = 1) ∧
    (n = 5 → (randomSearchMaximize acq tie sampler r n false).length = 5) := by
  have hrw : randomSearchMaximize acq tie sampler r n false =
      (if 1 < n then sampler r n.toNat else sampler r 1).map fun c =>
        ((0 : Int), setOrigin c "Random Search") := by
    unfold randomSearchMaximize
    simp [List.map_map]
  have hlen2 : 1 ≤ n → (randomSearchMaximize acq tie sampler r n false).length =
      n.toNat := by
    intro hn
    rw [hrw]
    by_cases h1 : 1 < n
    · simp [h1, hlen]
    · have hn1 : n = 1 := by omega
      simp [h1, hlen, hn1]
  refine ⟨hrw, ?_, ?_, hlen2, ?_, ?_⟩
  · intro p hp
    rw [hrw] at hp
    simp only [List.mem_map] at hp
    obtain ⟨c, _, rfl⟩ := hp
    exact ⟨rfl, rfl⟩
  · rw [hrw]
    simp [List.map_map]
  · intro hn
    rw [hlen2 (by omega), hn]
    rfl
  · intro hn
    rw [hlen2 (by omega), hn]
    rfl

/-- C8 witness: with a well-sized sampler, `num_points = 5` yields
exactly five score-0 "Random Search" results. -/
theorem randomsearch_batch_semantics_witness :
    (randomSearchMaximize acqVec tieZero samplerW 0 5 false).length = 5 ∧
    (randomSearchMaximize acqVec tieZero samplerW 0 1 false).length = 1 ∧
    (∀ p ∈ randomSearchMaximize acqVec tieZero samplerW 0 5 false,
      p.1 = 0 ∧ p.2.origin = "Random Search") := by
  have hlen : ∀ i k, (samplerW i k).length = k := by
    intro i k
    simp [samplerW]
  refine ⟨?_, ?_, ?_⟩
  · exact (randomsearch_batch_semantics acqVec tieZero samplerW 0 5 hlen).2.2.2.2.2 rfl
  · exact (randomsearch_batch_semantics acqVec tieZero samplerW 0 1 hlen).2.2.2.2.1 rfl
  · exact (randomsearch_batch_semantics acqVec tieZero samplerW 0 5 hlen).2.1

/-- C9: invoking the `_maximize` primitive on the abstract
`AcquisitionFunctionMaximizer` base or on the composite
`InterleavedLocalAndRandomSearch` raises `NotImplementedError`, for
every combination of arguments. -/
theorem rank_unimplemented :
    ∀ (rh : RunHistory) (numPoints : Int),
      abstractRank rh numPoints = Except.error MaximizerError.notImplemented ∧
      interleavedRank rh numPoints = Except.error MaximizerError.notImplemented :=
  fun _ _ => ⟨rfl, rfl⟩

/-! ### InterleavedLocalAndRandomSearch (C5) -/

theorem sortDesc_perm (l : List (Int × Configuration)) : (sortDesc l).Perm l :=
  List.perm_insertionSort descRel l

theorem sortDesc_length (l : List (Int × Configuration)) :
    (sortDesc l).length = l.length :=
  (sortDesc_perm l).length_eq

theorem sortDesc_pairwise (l : List (Int × Configuration)) :
    List.Pairwise (· ≥ ·) ((sortDesc l).map Prod.fst) := by
  rw [List.pairwise_map]
  exact List.sorted_insertionSort descRel l

theorem mapOptionList_length (f : α → Option β) :
    ∀ (xs : List α) (ys : List β), mapOptionList f xs = some ys →
      ys.length = xs.length := by
  intro xs
  induction xs with
  | nil =>
    intro ys h
    simp only [mapOptionList] at h
    rw [← Option.some.inj h]
    rfl
  | cons x xs ih =>
    intro ys h
    simp only [mapOptionList] at h
    rcases hfx : f x with _ | y
    · rw [hfx] at h; simp at h
    · rw [hfx] at h
      rcases hrec : mapOptionList f xs with _ | zs
      · rw [hrec] at h; simp at h
      · rw [hrec] at h
        dsimp only at h
        rw [← Option.some.inj h]
        simp [ih zs hrec]

theorem localSearchInitPoints_length (acq : Configuration → Int) (tie : Nat → Int)
    (sampler : Nat → Nat → List Configuration) (r : Nat) (rh : RunHistory)
    (numPoints : Nat) (h1 : 1 ≤ numPoints) (hd : numPoints ≤ rh.data.length)
    (ha : numPoints ≤ rh.allConfigs.length) :
    (localSearchInitPoints acq tie sampler r rh numPoints).length = numPoints := by
  unfold localSearchInitPoints getInitialPoints
  have hne : rh.data ≠ [] := by
    intro h
    rw [h] at hd
    simp at hd
    omega
  rw [if_neg (by simp [List.isEmpty_iff, hne])]
  simp only [List.length_map, List.length_take, sortConfigs_length]
  omega

theorem localMaximize_length (acq : Configuration → Int) (tie : Nat → Int)
    (nbhd : Configuration → Nat → List Configuration)
    (sampler : Nat → Nat → List Configuration)
    (shuffle : List (Int × Configuration) → List (Int × Configuration))
    (maxIter : Option Nat) (npw : Nat) (rh : RunHistory) (numPoints r fuel : Nat)
    (locals : List (Int × Configuration))
    (hshuffle : ∀ l, (shuffle l).Perm l)
    (h : localMaximize acq tie nbhd sampler shuffle maxIter npw rh numPoints r fuel =
      some locals) :
    locals.length = (localSearchInitPoints acq tie sampler r rh numPoints).length := by
  unfold localMaximize at h
  rw [Option.map_eq_some'] at h
  obtain ⟨results, hres, hL⟩ := h
  rw [← hL, sortDesc_length, (hshuffle results).length_eq,
    mapOptionList_length _ _ _ hres]

/-- C5: `InterleavedLocalAndRandomSearch.maximize` asks `LocalSearch`
for the fixed constant 10 points, asks `RandomSearch` for
`num_points - (number of local results)` sorted results, and wraps in a
`ChallengerList` the concatenation (random results first, then local
results) sorted descending by score — a permutation of the two result
lists with a non-increasing score sequence; with `num_points = 15` and a
history of at least 10 prior evaluations, `LocalSearch` contributes
exactly 10 results and `RandomSearch` is asked for `15 - 10 = 5`. -/
theorem interleaved_search_composition (acq : Configuration → Int) (tie : Nat → Int)
    (nbhd : Configuration → Nat → List Configuration)
    (sampler : Nat → Nat → List Configuration)
    (shuffle : List (Int × Configuration) → List (Int × Configuration))
    (rh : RunHistory) (numPoints : Int) (rL rR fuel : Nat)
    (locals : List (Int × Configuration))
    (hshuffle : ∀ l, (shuffle l).Perm l)
    (hloc : localMaximize acq tie nbhd sampler shuffle none 10 rh 10 rL fuel =
      some locals) :
    (ILRSmaximize acq tie nbhd sampler shuffle rh numPoints rL rR fuel =
      some (initCL ((sortDesc (randomSearchMaximize acq tie sampler rR
        (numPoints - locals.length) true ++ locals)).map Prod.snd))) ∧
    (sortDesc (randomSearchMaximize acq tie sampler rR (numPoints - locals.length)
        true ++ locals)).Perm
      (randomSearchMaximize acq tie sampler rR (numPoints - locals.length) true
        ++ locals) ∧
    List.Pairwise (· ≥ ·) ((sortDesc (randomSearchMaximize acq tie sampler rR
      (numPoints - locals.length) true ++ locals)).map Prod.fst) ∧
    (10 ≤ rh.data.length → 10 ≤ rh.allConfigs.length →
      locals.length = 10 ∧
      (numPoints = 15 → numPoints - (locals.length : Int) = 5)) := by
  refine ⟨?_, sortDesc_perm _, sortDesc_pairwise _, ?_⟩
  · unfold ILRSmaximize
    rw [hloc]
    rfl
  · intro hdata hall
    have hlen10 : locals.length = 10 := by
      have h1 := localMaximize_length acq tie nbhd sampler shuffle none 10 rh 10 rL
        fuel locals hshuffle hloc
      rw [h1, localSearchInitPoints_length acq tie sampler rL rh 10 (by omega)
        hdata hall]
    refine ⟨hlen10, fun h15 => ?_⟩
    rw [hlen10, h15]
    decide

/-- C5 witness: with a ten-run history and empty neighborhoods,
`LocalSearch` contributes exactly 10 results and `RandomSearch` is asked
for `15 - 10 = 5`. -/
theorem interleaved_search_composition_witness :
    locals10.length = 10 ∧ (15 : Int) - (locals10.length : Int) = 5 := by
  have h := interleaved_search_composition acqVec tieZero nbhdNone samplerW shuffleId
    rh10def 15 0 0 1 locals10 (fun l => List.Perm.refl _) (by decide)
  have h4 := h.2.2.2 (by decide) (by decide)
  exact ⟨h4.1, h4.2 rfl⟩
